import Mathlib

/-!
# Verification of `pretrained/load_tf_weights.py`

A shallow embedding of the TensorFlow-to-PyTorch EfficientNet weight
converter, together with proofs about its conversion-table builder
(`load_efficientnet`) and its per-parameter loader (`load_param`).

Multi-dimensional numeric arrays are modelled as a shape (list of
dimension sizes) plus a row-major flat data list.  `np.transpose` with an
explicit axis order, and the default axis-reversing `np.transpose`, are
modelled over that representation.  Checkpoint stores are partial maps
from variable names to arrays; the in-place mutation of the PyTorch
tensors is modelled by explicit state passing over the list of table
entries, with the Python `assert` modelled as an abort that reports the
mismatching shapes and the offending variable name.
-/

/-- Number of elements of an array of the given shape (product of the
dimension sizes; 1 for the empty shape). -/
def numel : List Nat → Nat
  | [] => 1
  | s :: ss => s * numel ss

/-- A multi-dimensional numeric array: a shape and the row-major flat
data.  Element values are modelled as integers (the converter never
inspects values, it only rearranges them). -/
structure NDArray where
  shape : List Nat
  data : List Int
deriving DecidableEq

/-- Well-formedness: the flat data holds exactly one value per index. -/
def NDArray.wf (a : NDArray) : Prop := a.data.length = numel a.shape

/-- Row-major flat position of a multi-index. -/
def flattenIdx : List Nat → List Nat → Nat
  | _ :: ss, i :: is => i * numel ss + flattenIdx ss is
  | _, _ => 0

/-- Multi-index of a row-major flat position. -/
def unflattenIdx : List Nat → Nat → List Nat
  | [], _ => []
  | _ :: ss, n => n / numel ss :: unflattenIdx ss (n % numel ss)

/-- A multi-index is in bounds for a shape: same rank, each coordinate
below the corresponding dimension size. -/
def validIdx : List Nat → List Nat → Bool
  | [], [] => true
  | s :: ss, i :: is => decide (i < s) && validIdx ss is
  | _, _ => false

/-- The element of an array at a multi-index (0 out of bounds). -/
def NDArray.item (a : NDArray) (idx : List Nat) : Int :=
  a.data.getD (flattenIdx a.shape idx) 0

/-- Shape of `np.transpose(a, axes)`: dimension `k` of the result is
dimension `axes[k]` of the argument. -/
def permuteShape (axes shape : List Nat) : List Nat :=
  axes.map (fun k => shape.getD k 0)

/-- Source multi-index read by `np.transpose(a, axes)` at destination
multi-index `idx`: the source coordinate on axis `m` is the destination
coordinate on the position of `m` inside `axes`. -/
def invPermIdx (axes idx : List Nat) : List Nat :=
  (List.range axes.length).map (fun m => idx.getD (axes.indexOf m) 0)

/-- `np.transpose(a, axes)` over the flat row-major representation. -/
def transposeAxes (a : NDArray) (axes : List Nat) : NDArray :=
  let ns := permuteShape axes a.shape
  ⟨ns, (List.range (numel ns)).map
        (fun n => a.item (invPermIdx axes (unflattenIdx ns n)))⟩

/-- `np.transpose(a)` with no axis argument: reverse all axes. -/
def npTransposeDefault (a : NDArray) : NDArray :=
  transposeAxes a (List.range a.shape.length).reverse

/-! ## String tests used by `load_param`

Python's `'conv' in name` (substring containment) and
`name.endswith('kernel')`. -/

/-- `pat` occurs at the very start of `s`. -/
def listLeads : List Char → List Char → Bool
  | [], _ => true
  | _ :: _, [] => false
  | p :: ps, c :: cs => p == c && listLeads ps cs

/-- `pat` occurs contiguously somewhere inside `s`. -/
def listHasSub (pat : List Char) : List Char → Bool
  | [] => decide (pat = [])
  | c :: cs => listLeads pat (c :: cs) || listHasSub pat cs

/-- Python `pat in s` for strings. -/
def strContains (s pat : String) : Bool := listHasSub pat.toList s.toList

/-- Python `s.endswith(pat)`. -/
def strEndsWith (s pat : String) : Bool :=
  listLeads pat.toList.reverse s.toList.reverse

/-! ## The per-parameter loader `load_param` -/

/-- The axis rearrangement `load_param` applies to the fetched source
array, chosen by substring tests on the full variable name:

* name contains `"conv"` and `"kernel"`: `np.transpose(a, (3, 2, 0, 1))`,
  and if the name also contains `"depthwise"`, a further
  `np.transpose(_, (1, 0, 2, 3))` of that result;
* otherwise, name ends with `"kernel"`: plain `np.transpose(a)`;
* otherwise: the array unchanged. -/
def convertParam (fullName : String) (a : NDArray) : NDArray :=
  if strContains fullName "conv" && strContains fullName "kernel" then
    let t := transposeAxes a [3, 2, 0, 1]
    if strContains fullName "depthwise" then transposeAxes t [1, 0, 2, 3] else t
  else if strEndsWith fullName "kernel" then
    npTransposeDefault a
  else a

/-- One conversion-table entry as iterated by `load_param`: the current
target tensor (a PyTorch parameter; its shape is `pyt_param.size()`) and
the checkpoint subpath the table maps it to. -/
structure TableEntry where
  target : NDArray
  subpath : String
deriving DecidableEq

/-- A checkpoint store: name-indexed read-only collection of arrays
(`tf.train.load_variable`). -/
abbrev Store := String → Option NDArray

/-- The failures `load_param` can raise: a missing checkpoint variable
(from `tf.train.load_variable`), or the `assert` on a shape mismatch,
which reports the target shape, the (possibly transposed) source shape
and the full source variable name. -/
inductive LoadError where
  | missingVariable (name : String)
  | dimMismatch (targetShape srcShape : List Nat) (name : String)
deriving DecidableEq

/-- One iteration of the `load_param` loop: build the full name
`model_name + '/' + subpath`, fetch, transpose, check shapes; on success
return the value written into the target tensor. -/
def loadOneParam (store : Store) (modelName : String) (e : TableEntry) :
    Except LoadError NDArray :=
  let fullName := modelName ++ "/" ++ e.subpath
  match store fullName with
  | none => .error (.missingVariable fullName)
  | some src =>
    let t := convertParam fullName src
    if e.target.shape = t.shape then .ok t
    else .error (.dimMismatch e.target.shape t.shape fullName)

/-- The whole `load_param` loop with its in-place mutation made explicit:
returns the final value of every entry's target tensor, in table order,
together with the first error if one aborted the loop.  On an abort, the
failing entry and all later entries keep their previous target values. -/
def loadParams (store : Store) (modelName : String) :
    List TableEntry → List NDArray × Option LoadError
  | [] => ([], none)
  | e :: rest =>
    match loadOneParam store modelName e with
    | .error err => (e.target :: rest.map (fun x => x.target), some err)
    | .ok v =>
      let r := loadParams store modelName rest
      (v :: r.1, r.2)

/-- The value a single entry's target holds after its own iteration ran
to completion or failed its shape check. -/
def loadedValue (store : Store) (modelName : String) (e : TableEntry) : NDArray :=
  match loadOneParam store modelName e with
  | .ok v => v
  | .error _ => e.target

/-! ## The conversion-table builder `load_efficientnet`

Target tensors are identified by their structural position in the model
(the Python code keys the table by the live tensor objects themselves;
two distinct positions are distinct objects). -/

/-- The four tensors of a batch-normalization layer. -/
inductive BNField where
  | bias
  | weight
  | runningMean
  | runningVar
deriving DecidableEq

/-- The tensors of one MBConv block that the table maps. -/
inductive BlockTensor where
  | expandConvWeight
  | projectConvWeight
  | depthwiseConvWeight
  | seReduceBias
  | seReduceWeight
  | seExpandBias
  | seExpandWeight
  | bn0 (f : BNField)
  | bn1 (f : BNField)
  | bn2 (f : BNField)
deriving DecidableEq

/-- A target tensor of the whole model. -/
inductive TensorId where
  | convStemWeight
  | bn0 (f : BNField)
  | convHeadWeight
  | bn1 (f : BNField)
  | fcBias
  | fcWeight
  | blockTensor (i : Nat) (t : BlockTensor)
deriving DecidableEq

/-- `conversion_table_for_weights_outside_blocks`. -/
def outsideBlocksTable : List (TensorId × String) :=
  [(.convStemWeight, "stem/conv2d/kernel"),
   (.bn0 .bias, "stem/tpu_batch_normalization/beta"),
   (.bn0 .weight, "stem/tpu_batch_normalization/gamma"),
   (.bn0 .runningMean, "stem/tpu_batch_normalization/moving_mean"),
   (.bn0 .runningVar, "stem/tpu_batch_normalization/moving_variance"),
   (.convHeadWeight, "head/conv2d/kernel"),
   (.bn1 .bias, "head/tpu_batch_normalization/beta"),
   (.bn1 .weight, "head/tpu_batch_normalization/gamma"),
   (.bn1 .runningMean, "head/tpu_batch_normalization/moving_mean"),
   (.bn1 .runningVar, "head/tpu_batch_normalization/moving_variance"),
   (.fcBias, "head/dense/bias"),
   (.fcWeight, "head/dense/kernel")]

/-- `conversion_table_for_first_block` (literal `blocks_0` names). -/
def firstBlockTable : List (TensorId × String) :=
  [(.blockTensor 0 .projectConvWeight, "blocks_0/conv2d/kernel"),
   (.blockTensor 0 .depthwiseConvWeight, "blocks_0/depthwise_conv2d/depthwise_kernel"),
   (.blockTensor 0 .seReduceBias, "blocks_0/se/conv2d/bias"),
   (.blockTensor 0 .seReduceWeight, "blocks_0/se/conv2d/kernel"),
   (.blockTensor 0 .seExpandBias, "blocks_0/se/conv2d_1/bias"),
   (.blockTensor 0 .seExpandWeight, "blocks_0/se/conv2d_1/kernel"),
   (.blockTensor 0 (.bn1 .bias), "blocks_0/tpu_batch_normalization/beta"),
   (.blockTensor 0 (.bn1 .weight), "blocks_0/tpu_batch_normalization/gamma"),
   (.blockTensor 0 (.bn1 .runningMean), "blocks_0/tpu_batch_normalization/moving_mean"),
   (.blockTensor 0 (.bn1 .runningVar), "blocks_0/tpu_batch_normalization/moving_variance"),
   (.blockTensor 0 (.bn2 .bias), "blocks_0/tpu_batch_normalization_1/beta"),
   (.blockTensor 0 (.bn2 .weight), "blocks_0/tpu_batch_normalization_1/gamma"),
   (.blockTensor 0 (.bn2 .runningMean), "blocks_0/tpu_batch_normalization_1/moving_mean"),
   (.blockTensor 0 (.bn2 .runningVar), "blocks_0/tpu_batch_normalization_1/moving_variance")]

/-- The `conversion_table_block` emitted by the loop when block `i` has
no expand convolution (`is_first_block` true). -/
def noExpandBlockTable (i : Nat) : List (TensorId × String) :=
  [(.blockTensor i .projectConvWeight, "blocks_" ++ toString i ++ "/conv2d/kernel"),
   (.blockTensor i .depthwiseConvWeight, "blocks_" ++ toString i ++ "/depthwise_conv2d/depthwise_kernel"),
   (.blockTensor i .seReduceBias, "blocks_" ++ toString i ++ "/se/conv2d/bias"),
   (.blockTensor i .seReduceWeight, "blocks_" ++ toString i ++ "/se/conv2d/kernel"),
   (.blockTensor i .seExpandBias, "blocks_" ++ toString i ++ "/se/conv2d_1/bias"),
   (.blockTensor i .seExpandWeight, "blocks_" ++ toString i ++ "/se/conv2d_1/kernel"),
   (.blockTensor i (.bn1 .bias), "blocks_" ++ toString i ++ "/tpu_batch_normalization/beta"),
   (.blockTensor i (.bn1 .weight), "blocks_" ++ toString i ++ "/tpu_batch_normalization/gamma"),
   (.blockTensor i (.bn1 .runningMean), "blocks_" ++ toString i ++ "/tpu_batch_normalization/moving_mean"),
   (.blockTensor i (.bn1 .runningVar), "blocks_" ++ toString i ++ "/tpu_batch_normalization/moving_variance"),
   (.blockTensor i (.bn2 .bias), "blocks_" ++ toString i ++ "/tpu_batch_normalization_1/beta"),
   (.blockTensor i (.bn2 .weight), "blocks_" ++ toString i ++ "/tpu_batch_normalization_1/gamma"),
   (.blockTensor i (.bn2 .runningMean), "blocks_" ++ toString i ++ "/tpu_batch_normalization_1/moving_mean"),
   (.blockTensor i (.bn2 .runningVar), "blocks_" ++ toString i ++ "/tpu_batch_normalization_1/moving_variance")]

/-- The `conversion_table_block` emitted by the loop when block `i` has
an expand convolution (`is_first_block` false). -/
def hasExpandBlockTable (i : Nat) : List (TensorId × String) :=
  [(.blockTensor i .expandConvWeight, "blocks_" ++ toString i ++ "/conv2d/kernel"),
   (.blockTensor i .projectConvWeight, "blocks_" ++ toString i ++ "/conv2d_1/kernel"),
   (.blockTensor i .depthwiseConvWeight, "blocks_" ++ toString i ++ "/depthwise_conv2d/depthwise_kernel"),
   (.blockTensor i .seReduceBias, "blocks_" ++ toString i ++ "/se/conv2d/bias"),
   (.blockTensor i .seReduceWeight, "blocks_" ++ toString i ++ "/se/conv2d/kernel"),
   (.blockTensor i .seExpandBias, "blocks_" ++ toString i ++ "/se/conv2d_1/bias"),
   (.blockTensor i .seExpandWeight, "blocks_" ++ toString i ++ "/se/conv2d_1/kernel"),
   (.blockTensor i (.bn0 .bias), "blocks_" ++ toString i ++ "/tpu_batch_normalization/beta"),
   (.blockTensor i (.bn0 .weight), "blocks_" ++ toString i ++ "/tpu_batch_normalization/gamma"),
   (.blockTensor i (.bn0 .runningMean), "blocks_" ++ toString i ++ "/tpu_batch_normalization/moving_mean"),
   (.blockTensor i (.bn0 .runningVar), "blocks_" ++ toString i ++ "/tpu_batch_normalization/moving_variance"),
   (.blockTensor i (.bn1 .bias), "blocks_" ++ toString i ++ "/tpu_batch_normalization_1/beta"),
   (.blockTensor i (.bn1 .weight), "blocks_" ++ toString i ++ "/tpu_batch_normalization_1/gamma"),
   (.blockTensor i (.bn1 .runningMean), "blocks_" ++ toString i ++ "/tpu_batch_normalization_1/moving_mean"),
   (.blockTensor i (.bn1 .runningVar), "blocks_" ++ toString i ++ "/tpu_batch_normalization_1/moving_variance"),
   (.blockTensor i (.bn2 .bias), "blocks_" ++ toString i ++ "/tpu_batch_normalization_2/beta"),
   (.blockTensor i (.bn2 .weight), "blocks_" ++ toString i ++ "/tpu_batch_normalization_2/gamma"),
   (.blockTensor i (.bn2 .runningMean), "blocks_" ++ toString i ++ "/tpu_batch_normalization_2/moving_mean"),
   (.blockTensor i (.bn2 .runningVar), "blocks_" ++ toString i ++ "/tpu_batch_normalization_2/moving_variance")]

/-- The table the loop emits for block `i`, given which blocks own an
expand convolution (`'_expand_conv.weight' in named_parameters`). -/
def blockTable (hasExpand : Nat → Bool) (i : Nat) : List (TensorId × String) :=
  if hasExpand i then hasExpandBlockTable i else noExpandBlockTable i

/-- Every (target, source-name) pair `load_efficientnet` feeds into its
dictionary merges, in merge order: the outside-block table, the dedicated
first-block table, then the loop over blocks `0 .. numBlocks - 1`. -/
def conversionPairs (numBlocks : Nat) (hasExpand : Nat → Bool) :
    List (TensorId × String) :=
  outsideBlocksTable ++ firstBlockTable ++
    ((List.range numBlocks).map (blockTable hasExpand)).flatten

/-- The emitted pairs define a function: no target tensor is paired with
two different source names (so the dictionary merges never overwrite a
key with a different value). -/
def pairsFunctional (l : List (TensorId × String)) : Prop :=
  ∀ p ∈ l, ∀ q ∈ l, p.1 = q.1 → p.2 = q.2

/-! ## Row-major index arithmetic -/

theorem flattenIdx_lt {s : List Nat} :
    ∀ {i : List Nat}, validIdx s i = true → flattenIdx s i < numel s := by
  induction s with
  | nil =>
    intro i h
    cases i with
    | nil => simp [flattenIdx, numel]
    | cons j is => simp [validIdx] at h
  | cons d ss ih =>
    intro i h
    cases i with
    | nil => simp [validIdx] at h
    | cons j is =>
      simp only [validIdx, Bool.and_eq_true, decide_eq_true_eq] at h
      obtain ⟨hj, hv⟩ := h
      have hrec := ih hv
      simp only [flattenIdx, numel]
      calc j * numel ss + flattenIdx ss is
          < j * numel ss + numel ss := Nat.add_lt_add_left hrec _
        _ = (j + 1) * numel ss := by ring
        _ ≤ d * numel ss := Nat.mul_le_mul_right _ hj

theorem unflattenIdx_flattenIdx {s : List Nat} :
    ∀ {i : List Nat}, validIdx s i = true → unflattenIdx s (flattenIdx s i) = i := by
  induction s with
  | nil =>
    intro i h
    cases i with
    | nil => rfl
    | cons j is => simp [validIdx] at h
  | cons d ss ih =>
    intro i h
    cases i with
    | nil => simp [validIdx] at h
    | cons j is =>
      simp only [validIdx, Bool.and_eq_true, decide_eq_true_eq] at h
      obtain ⟨hj, hv⟩ := h
      have hlt : flattenIdx ss is < numel ss := flattenIdx_lt hv
      have hP : 0 < numel ss := Nat.lt_of_le_of_lt (Nat.zero_le _) hlt
      simp only [flattenIdx, unflattenIdx]
      rw [Nat.mul_comm j (numel ss), Nat.mul_add_div hP, Nat.div_eq_of_lt hlt,
          Nat.add_zero, Nat.mul_add_mod, Nat.mod_eq_of_lt hlt, ih hv]

theorem flattenIdx_unflattenIdx {s : List Nat} :
    ∀ {n : Nat}, n < numel s → flattenIdx s (unflattenIdx s n) = n := by
  induction s with
  | nil =>
    intro n h
    simp only [numel, Nat.lt_one_iff] at h
    subst h
    rfl
  | cons d ss ih =>
    intro n h
    have hP : 0 < numel ss := by
      rcases Nat.eq_zero_or_pos (numel ss) with h0 | h0
      · simp [numel, h0] at h
      · exact h0
    have hmod : n % numel ss < numel ss := Nat.mod_lt _ hP
    simp only [unflattenIdx, flattenIdx, ih hmod]
    rw [Nat.mul_comm, Nat.div_add_mod]

theorem validIdx_unflattenIdx {s : List Nat} :
    ∀ {n : Nat}, n < numel s → validIdx s (unflattenIdx s n) = true := by
  induction s with
  | nil => intro n h; rfl
  | cons d ss ih =>
    intro n h
    have hP : 0 < numel ss := by
      rcases Nat.eq_zero_or_pos (numel ss) with h0 | h0
      · simp [numel, h0] at h
      · exact h0
    have hmod : n % numel ss < numel ss := Nat.mod_lt _ hP
    have hdiv : n / numel ss < d := by
      rw [Nat.div_lt_iff_lt_mul hP]
      simpa [numel, Nat.mul_comm] using h
    simp only [unflattenIdx, validIdx, Bool.and_eq_true, decide_eq_true_eq]
    exact ⟨hdiv, ih hmod⟩

theorem length_unflattenIdx {s : List Nat} :
    ∀ n : Nat, (unflattenIdx s n).length = s.length := by
  induction s with
  | nil => intro n; rfl
  | cons d ss ih => intro n; simp [unflattenIdx, ih]

/-! ## Pointwise description of `transposeAxes` -/

theorem transposeAxes_shape (a : NDArray) (axes : List Nat) :
    (transposeAxes a axes).shape = permuteShape axes a.shape := rfl

theorem transposeAxes_wf (a : NDArray) (axes : List Nat) :
    (transposeAxes a axes).wf := by
  simp [NDArray.wf, transposeAxes]

/-- What `np.transpose(a, axes)` holds at an in-bounds destination
multi-index: the source element at the inversely permuted multi-index. -/
theorem item_transposeAxes (a : NDArray) (axes I : List Nat)
    (h : validIdx (permuteShape axes a.shape) I = true) :
    (transposeAxes a axes).item I = a.item (invPermIdx axes I) := by
  have hlt : flattenIdx (permuteShape axes a.shape) I
      < numel (permuteShape axes a.shape) := flattenIdx_lt h
  simp only [NDArray.item, transposeAxes]
  rw [List.getD_eq_getElem?_getD, List.getElem?_map,
      List.getElem?_range hlt]
  simp [unflattenIdx_flattenIdx h, NDArray.item]

/-- Two arrays of the same shape, both carrying one value per index,
that agree at every in-bounds multi-index are equal. -/
theorem ndarray_eq_of_item_eq {a b : NDArray} (hs : a.shape = b.shape)
    (ha : a.data.length = numel a.shape) (hb : b.data.length = numel b.shape)
    (h : ∀ I, validIdx a.shape I = true → a.item I = b.item I) : a = b := by
  obtain ⟨sa, da⟩ := a
  obtain ⟨sb, db⟩ := b
  simp only at hs ha hb
  subst hs
  simp only [NDArray.mk.injEq, true_and]
  apply List.ext_getElem (by rw [ha, hb])
  intro k h1 h2
  have hk : k < numel sa := by rw [← ha]; exact h1
  have hitem := h (unflattenIdx sa k) (validIdx_unflattenIdx hk)
  simp only [NDArray.item, flattenIdx_unflattenIdx hk] at hitem
  rw [List.getD_eq_getElem?_getD, List.getElem?_eq_getElem h1] at hitem
  rw [List.getD_eq_getElem?_getD, List.getElem?_eq_getElem h2] at hitem
  simpa using hitem

/-! ## Rank-4 specializations for the convolution permutations -/

theorem exists_shape4 {s : List Nat} (h : s.length = 4) :
    ∃ s0 s1 s2 s3, s = [s0, s1, s2, s3] := by
  rcases s with _ | ⟨s0, s⟩
  · simp at h
  rcases s with _ | ⟨s1, s⟩
  · simp at h
  rcases s with _ | ⟨s2, s⟩
  · simp at h
  rcases s with _ | ⟨s3, s⟩
  · simp at h
  rcases s with _ | ⟨s4, s⟩
  · exact ⟨s0, s1, s2, s3, rfl⟩
  · simp at h

theorem validIdx4 {s0 s1 s2 s3 : Nat} {I : List Nat}
    (h : validIdx [s0, s1, s2, s3] I = true) :
    ∃ j0 j1 j2 j3, I = [j0, j1, j2, j3] ∧
      j0 < s0 ∧ j1 < s1 ∧ j2 < s2 ∧ j3 < s3 := by
  rcases I with _ | ⟨j0, I⟩
  · simp [validIdx] at h
  rcases I with _ | ⟨j1, I⟩
  · simp [validIdx] at h
  rcases I with _ | ⟨j2, I⟩
  · simp [validIdx] at h
  rcases I with _ | ⟨j3, I⟩
  · simp [validIdx] at h
  rcases I with _ | ⟨j4, I⟩
  · simp only [validIdx, Bool.and_eq_true, decide_eq_true_eq] at h
    exact ⟨j0, j1, j2, j3, rfl, h.1, h.2.1, h.2.2.1, h.2.2.2.1⟩
  · simp [validIdx] at h

/-- Round trip for the ordinary convolution permutation: `(3, 2, 0, 1)`
followed by its inverse `(2, 3, 1, 0)` restores a rank-4 array. -/
theorem conv_perm_roundtrip {a : NDArray} (hw : a.wf) (h4 : a.shape.length = 4) :
    transposeAxes (transposeAxes a [3, 2, 0, 1]) [2, 3, 1, 0] = a := by
  obtain ⟨s0, s1, s2, s3, hs⟩ := exists_shape4 h4
  have hshape : (transposeAxes (transposeAxes a [3, 2, 0, 1]) [2, 3, 1, 0]).shape
      = a.shape := by
    simp only [transposeAxes_shape, hs]
    rfl
  apply ndarray_eq_of_item_eq hshape (transposeAxes_wf _ _) hw
  intro I hI
  rw [hshape, hs] at hI
  obtain ⟨j0, j1, j2, j3, hIeq, h0, h1, h2, h3⟩ := validIdx4 hI
  subst hIeq
  have hv1 : validIdx (permuteShape [2, 3, 1, 0]
      (transposeAxes a [3, 2, 0, 1]).shape) [j0, j1, j2, j3] = true := by
    rw [transposeAxes_shape, hs]
    show validIdx [s0, s1, s2, s3] [j0, j1, j2, j3] = true
    simp [validIdx, h0, h1, h2, h3]
  rw [item_transposeAxes _ _ _ hv1]
  have hinv1 : invPermIdx [2, 3, 1, 0] [j0, j1, j2, j3] = [j3, j2, j0, j1] := rfl
  rw [hinv1]
  have hv2 : validIdx (permuteShape [3, 2, 0, 1] a.shape)
      [j3, j2, j0, j1] = true := by
    rw [hs]
    show validIdx [s3, s2, s0, s1] [j3, j2, j0, j1] = true
    simp [validIdx, h0, h1, h2, h3]
  rw [item_transposeAxes _ _ _ hv2]
  rfl

/-- Round trip for the depthwise case: `(3, 2, 0, 1)` then the extra
first-two-axis swap `(1, 0, 2, 3)`, undone by `(2, 3, 0, 1)` (the net
permutation is its own inverse). -/
theorem depthwise_perm_roundtrip {a : NDArray} (hw : a.wf)
    (h4 : a.shape.length = 4) :
    transposeAxes (transposeAxes (transposeAxes a [3, 2, 0, 1]) [1, 0, 2, 3])
      [2, 3, 0, 1] = a := by
  obtain ⟨s0, s1, s2, s3, hs⟩ := exists_shape4 h4
  have hshape : (transposeAxes (transposeAxes (transposeAxes a [3, 2, 0, 1])
      [1, 0, 2, 3]) [2, 3, 0, 1]).shape = a.shape := by
    simp only [transposeAxes_shape, hs]
    rfl
  apply ndarray_eq_of_item_eq hshape (transposeAxes_wf _ _) hw
  intro I hI
  rw [hshape, hs] at hI
  obtain ⟨j0, j1, j2, j3, hIeq, h0, h1, h2, h3⟩ := validIdx4 hI
  subst hIeq
  have hv1 : validIdx (permuteShape [2, 3, 0, 1]
      (transposeAxes (transposeAxes a [3, 2, 0, 1]) [1, 0, 2, 3]).shape)
      [j0, j1, j2, j3] = true := by
    rw [transposeAxes_shape, transposeAxes_shape, hs]
    show validIdx [s0, s1, s2, s3] [j0, j1, j2, j3] = true
    simp [validIdx, h0, h1, h2, h3]
  rw [item_transposeAxes _ _ _ hv1]
  have hinv1 : invPermIdx [2, 3, 0, 1] [j0, j1, j2, j3] = [j2, j3, j0, j1] := rfl
  rw [hinv1]
  have hv2 : validIdx (permuteShape [1, 0, 2, 3]
      (transposeAxes a [3, 2, 0, 1]).shape) [j2, j3, j0, j1] = true := by
    rw [transposeAxes_shape, hs]
    show validIdx [s2, s3, s0, s1] [j2, j3, j0, j1] = true
    simp [validIdx, h0, h1, h2, h3]
  rw [item_transposeAxes _ _ _ hv2]
  have hinv2 : invPermIdx [1, 0, 2, 3] [j2, j3, j0, j1] = [j3, j2, j0, j1] := rfl
  rw [hinv2]
  have hv3 : validIdx (permuteShape [3, 2, 0, 1] a.shape)
      [j3, j2, j0, j1] = true := by
    rw [hs]
    show validIdx [s3, s2, s0, s1] [j3, j2, j0, j1] = true
    simp [validIdx, h0, h1, h2, h3]
  rw [item_transposeAxes _ _ _ hv3]
  rfl

/-- The extra first-two-axis swap composed onto `(3, 2, 0, 1)` equals one
transposition by the net permutation `(2, 3, 0, 1)` of the original axes. -/
theorem depthwise_net_perm {a : NDArray} (h4 : a.shape.length = 4) :
    transposeAxes (transposeAxes a [3, 2, 0, 1]) [1, 0, 2, 3]
      = transposeAxes a [2, 3, 0, 1] := by
  obtain ⟨s0, s1, s2, s3, hs⟩ := exists_shape4 h4
  have hshape : (transposeAxes (transposeAxes a [3, 2, 0, 1]) [1, 0, 2, 3]).shape
      = (transposeAxes a [2, 3, 0, 1]).shape := by
    simp only [transposeAxes_shape, hs]
    rfl
  apply ndarray_eq_of_item_eq hshape (transposeAxes_wf _ _) (transposeAxes_wf _ _)
  intro I hI
  have hI2 : validIdx [s2, s3, s0, s1] I = true := by
    rw [transposeAxes_shape, transposeAxes_shape, hs] at hI
    exact hI
  obtain ⟨j0, j1, j2, j3, hIeq, h0, h1, h2, h3⟩ := validIdx4 hI2
  subst hIeq
  have hv1 : validIdx (permuteShape [1, 0, 2, 3]
      (transposeAxes a [3, 2, 0, 1]).shape) [j0, j1, j2, j3] = true := by
    rw [transposeAxes_shape, hs]
    show validIdx [s2, s3, s0, s1] [j0, j1, j2, j3] = true
    simp [validIdx, h0, h1, h2, h3]
  rw [item_transposeAxes _ _ _ hv1]
  have hinv1 : invPermIdx [1, 0, 2, 3] [j0, j1, j2, j3] = [j1, j0, j2, j3] := rfl
  rw [hinv1]
  have hv2 : validIdx (permuteShape [3, 2, 0, 1] a.shape) [j1, j0, j2, j3] = true := by
    rw [hs]
    show validIdx [s3, s2, s0, s1] [j1, j0, j2, j3] = true
    simp [validIdx, h0, h1, h2, h3]
  rw [item_transposeAxes _ _ _ hv2]
  have hv3 : validIdx (permuteShape [2, 3, 0, 1] a.shape) [j0, j1, j2, j3] = true := by
    rw [hs]
    show validIdx [s2, s3, s0, s1] [j0, j1, j2, j3] = true
    simp [validIdx, h0, h1, h2, h3]
  rw [item_transposeAxes _ _ _ hv3]
  rfl

/-! ## Substring tests across the `model_name + '/' + subpath` seam -/

theorem listLeads_append_sep {c : Char} {pat : List Char} (hc : c ∉ pat) :
    ∀ ys b : List Char, listLeads pat (ys ++ c :: b) = listLeads pat ys := by
  induction pat with
  | nil => intro ys b; rfl
  | cons p ps ih =>
    intro ys b
    cases ys with
    | nil =>
      have hpc : (p == c) = false := by
        simp only [beq_eq_false_iff_ne, ne_eq]
        intro h
        exact hc (by simp [h])
      simp [listLeads, hpc]
    | cons y ys2 =>
      simp only [List.cons_append, listLeads, List.append_eq]
      rw [ih (fun h => hc (List.mem_cons_of_mem _ h)) ys2 b]

theorem listHasSub_append_sep {c : Char} {pat : List Char} (hc : c ∉ pat)
    (hne : pat ≠ []) (ys b : List Char) :
    listHasSub pat (ys ++ c :: b) = (listHasSub pat ys || listHasSub pat b) := by
  induction ys with
  | nil =>
    cases pat with
    | nil => exact absurd rfl hne
    | cons p ps =>
      have hpc : (p == c) = false := by
        simp only [beq_eq_false_iff_ne, ne_eq]
        intro h
        exact hc (by simp [h])
      simp [listHasSub, listLeads, hpc]
  | cons y ys2 ih =>
    simp only [List.cons_append, listHasSub, List.append_eq]
    have h1 : listLeads pat (y :: (ys2 ++ c :: b)) = listLeads pat (y :: ys2) :=
      listLeads_append_sep hc (y :: ys2) b
    rw [h1, ih, Bool.or_assoc]

/-- `'pat' in model_name + '/' + sub` splits into the two sides when the
pattern has no slash. -/
theorem strContains_seam (pat : String) (hc : '/' ∉ pat.toList)
    (hne : pat.toList ≠ []) (m sub : String) :
    strContains (m ++ "/" ++ sub) pat
      = (strContains m pat || strContains sub pat) := by
  show listHasSub pat.toList (m ++ "/" ++ sub).data
    = (listHasSub pat.toList m.data || listHasSub pat.toList sub.data)
  rw [String.data_append, String.data_append]
  show listHasSub pat.toList (m.data ++ ['/'] ++ sub.data)
    = (listHasSub pat.toList m.data || listHasSub pat.toList sub.data)
  rw [← List.append_cons]
  exact listHasSub_append_sep hc hne m.data sub.data

/-- `endswith` across the seam: for a slash-free pattern it only looks at
the subpath. -/
theorem strEndsWith_seam (pat : String) (hc : '/' ∉ pat.toList)
    (m sub : String) :
    strEndsWith (m ++ "/" ++ sub) pat = strEndsWith sub pat := by
  show listLeads pat.toList.reverse (m ++ "/" ++ sub).data.reverse
    = listLeads pat.toList.reverse sub.data.reverse
  rw [String.data_append, String.data_append]
  show listLeads pat.toList.reverse ((m.data ++ ['/']) ++ sub.data).reverse
    = listLeads pat.toList.reverse sub.data.reverse
  rw [List.reverse_append, List.reverse_append]
  have hc2 : '/' ∉ pat.toList.reverse := by
    simp only [List.mem_reverse]
    exact hc
  exact listLeads_append_sep hc2 sub.data.reverse _

/-! ## Synthetic end-to-end scenarios from the specification -/

/-- Stem convolution kernel of shape `(3, 3, 3, 32)` with distinct
entries. -/
def stemSrc : NDArray := ⟨[3, 3, 3, 32], (List.range 288).map Int.ofNat⟩

/-- Target stem weight of shape `(32, 3, 3, 3)`. -/
def stemTarget : NDArray := ⟨[32, 3, 3, 3], List.replicate 288 0⟩

/-- A synthetic checkpoint store holding only the stem kernel under the
full name for model `"m"`. -/
def stemStore : Store :=
  fun n => if n = "m/stem/conv2d/kernel" then some stemSrc else none

/-- A squeeze-excite convolution bias of shape `(8)`. -/
def seBiasSrc : NDArray := ⟨[8], (List.range 8).map Int.ofNat⟩

/-- Target squeeze-excite bias of shape `(8)`. -/
def seBiasTarget : NDArray := ⟨[8], List.replicate 8 0⟩

/-- A synthetic store holding only the squeeze-excite bias. -/
def seBiasStore : Store :=
  fun n => if n = "m/blocks_0/se/conv2d/bias" then some seBiasSrc else none

/-- Target dense head weight of shape `(1000, 1280)`. -/
def denseTarget : NDArray := ⟨[1000, 1280], List.replicate 1280000 0⟩

/-- A synthetic store holding the given array as the dense head kernel. -/
def denseStore (src : NDArray) : Store :=
  fun n => if n = "m/head/dense/kernel" then some src else none

/-- A rank-2 dense head kernel of shape `(1280, 1000)` used to witness
the dense scenario. -/
def denseWitSrc : NDArray := ⟨[1280, 1000], List.replicate 1280000 0⟩

/-! ## Claims -/

/-- C1: every entry whose full lookup name contains both `"conv"` and
`"kernel"` has the fetched array permuted by `(3, 2, 0, 1)` before the
shape check and the copy (for depthwise names the further swap applies to
that already-permuted result); and in the stem scenario the target ends
up equal to the source transposed by `(3, 2, 0, 1)`, elementwise
`target[o, i, h, w] = src[h, w, i, o]`. -/
theorem conv_kernel_perm_applied_and_stem_scenario :
    (∀ (fullName : String) (a : NDArray),
      strContains fullName "conv" = true → strContains fullName "kernel" = true →
      convertParam fullName a =
        (if strContains fullName "depthwise" then
          transposeAxes (transposeAxes a [3, 2, 0, 1]) [1, 0, 2, 3]
        else transposeAxes a [3, 2, 0, 1]))
    ∧ loadParams stemStore "m" [⟨stemTarget, "stem/conv2d/kernel"⟩]
        = ([transposeAxes stemSrc [3, 2, 0, 1]], none)
    ∧ ∀ o i h w : Nat, o < 32 → i < 3 → h < 3 → w < 3 →
        (transposeAxes stemSrc [3, 2, 0, 1]).item [o, i, h, w]
          = stemSrc.item [h, w, i, o] := by
  refine ⟨?_, ?_, ?_⟩
  · intro fullName a h1 h2
    unfold convertParam
    rw [h1, h2]
    simp
  · rfl
  · intro o i h w ho hi hh hw
    have hv : validIdx (permuteShape [3, 2, 0, 1] stemSrc.shape)
        [o, i, h, w] = true := by
      show validIdx [32, 3, 3, 3] [o, i, h, w] = true
      simp [validIdx, ho, hi, hh, hw]
    rw [item_transposeAxes _ _ _ hv]
    rfl

/-- C1 witness: at the concrete stem name and array, the branch equation
of the claim instantiates to the `(3, 2, 0, 1)` transposition. -/
theorem conv_kernel_perm_applied_and_stem_scenario_witness :
    convertParam "m/stem/conv2d/kernel" stemSrc
      = transposeAxes stemSrc [3, 2, 0, 1] := by
  have h := conv_kernel_perm_applied_and_stem_scenario.1
    "m/stem/conv2d/kernel" stemSrc (by decide) (by decide)
  rw [show strContains "m/stem/conv2d/kernel" "depthwise" = false from by decide]
    at h
  simpa using h

/-- Helper for C2: equality of shape lists is rank equality plus
dimension-by-dimension equality. -/
theorem shape_eq_iff_rank_and_dims {l1 l2 : List Nat} :
    l1 = l2 ↔ (l1.length = l2.length ∧
      ∀ k, k < l2.length → l1.getD k 0 = l2.getD k 0) := by
  constructor
  · rintro rfl
    exact ⟨rfl, fun _ _ => rfl⟩
  · rintro ⟨hl, h⟩
    apply List.ext_getElem hl
    intro k h1 h2
    have hk := h k h2
    rw [List.getD_eq_getElem?_getD, List.getElem?_eq_getElem h1,
        List.getD_eq_getElem?_getD, List.getElem?_eq_getElem h2] at hk
    simpa using hk

/-- C2: when the (possibly transposed) source array's shape differs from
the destination tensor's shape, the loop aborts at that entry with a
`dimMismatch` carrying both shapes and the full source name; the failing
entry's target (and every later one) keeps its previous value.  The
equality being checked is dimension-by-dimension equality at equal
rank. -/
theorem shape_mismatch_aborts (store : Store) (m : String) (e : TableEntry)
    (rest : List TableEntry) (src : NDArray)
    (hstore : store (m ++ "/" ++ e.subpath) = some src)
    (hne : e.target.shape ≠ (convertParam (m ++ "/" ++ e.subpath) src).shape) :
    loadParams store m (e :: rest)
      = (e.target :: rest.map (fun x => x.target),
         some (.dimMismatch e.target.shape
           (convertParam (m ++ "/" ++ e.subpath) src).shape
           (m ++ "/" ++ e.subpath)))
    ∧ (e.target.shape = (convertParam (m ++ "/" ++ e.subpath) src).shape ↔
        (e.target.shape.length
            = (convertParam (m ++ "/" ++ e.subpath) src).shape.length ∧
          ∀ k, k < (convertParam (m ++ "/" ++ e.subpath) src).shape.length →
            e.target.shape.getD k 0
              = (convertParam (m ++ "/" ++ e.subpath) src).shape.getD k 0)) := by
  constructor
  · simp only [loadParams, loadOneParam, hstore]
    rw [if_neg hne]
  · exact shape_eq_iff_rank_and_dims

/-- C2 witness: a stem entry whose target was (wrongly) given the
untransposed source shape `(3, 3, 3, 32)` aborts with the mismatch
against the transposed shape `(32, 3, 3, 3)`. -/
theorem shape_mismatch_aborts_witness :
    loadParams stemStore "m" [⟨⟨[3, 3, 3, 32], List.replicate 288 0⟩,
        "stem/conv2d/kernel"⟩]
      = ([⟨[3, 3, 3, 32], List.replicate 288 0⟩],
         some (.dimMismatch [3, 3, 3, 32]
           (convertParam ("m" ++ "/" ++ "stem/conv2d/kernel") stemSrc).shape
           ("m" ++ "/" ++ "stem/conv2d/kernel"))) :=
  (shape_mismatch_aborts stemStore "m"
    ⟨⟨[3, 3, 3, 32], List.replicate 288 0⟩, "stem/conv2d/kernel"⟩ [] stemSrc
    rfl (by decide)).1

/-- C3 counterexample: a block with an expand convolution gets 19 pairs,
not 18 as claimed. -/
theorem block_table_expand_not_18 :
    ¬ ((blockTable (fun _ => true) 1).length = 18) := by decide

/-- C3 amended: the loop emits exactly 14 pairs for a block without an
expand convolution and exactly 19 for a block with one (the extra five
being the expand conv kernel and a third batch-norm group of four). -/
theorem block_table_sizes (h : Nat → Bool) (i : Nat) :
    (blockTable h i).length = if h i then 19 else 14 := by
  unfold blockTable
  by_cases hh : h i
  · rw [if_pos hh, if_pos hh]
    rfl
  · rw [if_neg hh, if_neg hh]
    rfl

/-- C4: for names indicating a depthwise kernel the loader swaps the
first two axes of the already-`(3, 2, 0, 1)`-permuted result — a net
permutation `(2, 3, 0, 1)` of the original axes for rank-4 arrays —
while ordinary convolution kernels and dense kernels get no such extra
swap. -/
theorem depthwise_extra_swap (fullName : String) (a : NDArray) :
    (strContains fullName "conv" = true → strContains fullName "kernel" = true →
      strContains fullName "depthwise" = true →
      convertParam fullName a
        = transposeAxes (transposeAxes a [3, 2, 0, 1]) [1, 0, 2, 3])
    ∧ (strContains fullName "conv" = true → strContains fullName "kernel" = true →
      strContains fullName "depthwise" = true → a.shape.length = 4 →
      convertParam fullName a = transposeAxes a [2, 3, 0, 1])
    ∧ (strContains fullName "conv" = true → strContains fullName "kernel" = true →
      strContains fullName "depthwise" = false →
      convertParam fullName a = transposeAxes a [3, 2, 0, 1])
    ∧ ((strContains fullName "conv" && strContains fullName "kernel") = false →
      strEndsWith fullName "kernel" = true →
      convertParam fullName a = npTransposeDefault a) := by
  refine ⟨?_, ?_, ?_, ?_⟩
  · intro h1 h2 h3
    unfold convertParam
    rw [h1, h2, h3]
    simp
  · intro h1 h2 h3 h4
    unfold convertParam
    rw [h1, h2, h3]
    simp only [Bool.and_self, if_true]
    exact depthwise_net_perm h4
  · intro h1 h2 h3
    unfold convertParam
    rw [h1, h2, h3]
    simp
  · intro h1 h2
    unfold convertParam
    rw [h1, h2]
    simp

/-- C4 witness: the depthwise kernel of block 0, on a concrete rank-4
array, is converted by the net permutation `(2, 3, 0, 1)`. -/
theorem depthwise_extra_swap_witness :
    convertParam "m/blocks_0/depthwise_conv2d/depthwise_kernel"
        ⟨[1, 1, 2, 1], [5, 7]⟩
      = transposeAxes ⟨[1, 1, 2, 1], [5, 7]⟩ [2, 3, 0, 1] :=
  (depthwise_extra_swap "m/blocks_0/depthwise_conv2d/depthwise_kernel"
    ⟨[1, 1, 2, 1], [5, 7]⟩).2.1 (by decide) (by decide) (by decide) rfl

/-- C5: a name ending in `"kernel"` that fails the convolution-kernel
condition gets the plain 2-D transpose; in the dense head scenario with a
`(1280, 1000)` source and a `(1000, 1280)` target, the target afterwards
equals the transpose, elementwise `target[i, j] = src[j, i]`. -/
theorem dense_kernel_transposed :
    (∀ (fullName : String) (a : NDArray),
      (strContains fullName "conv" && strContains fullName "kernel") = false →
      strEndsWith fullName "kernel" = true →
      convertParam fullName a = npTransposeDefault a)
    ∧ ∀ src : NDArray, src.shape = [1280, 1000] →
        (loadParams (denseStore src) "m" [⟨denseTarget, "head/dense/kernel"⟩]
            = ([npTransposeDefault src], none)
        ∧ ∀ i j : Nat, i < 1000 → j < 1280 →
            (npTransposeDefault src).item [i, j] = src.item [j, i]) := by
  constructor
  · intro fullName a h1 h2
    unfold convertParam
    rw [h1, h2]
    simp
  · intro src hs
    have hnp : npTransposeDefault src = transposeAxes src [1, 0] := by
      unfold npTransposeDefault
      rw [hs]
      rfl
    constructor
    · have hst : denseStore src ("m" ++ "/" ++ "head/dense/kernel") = some src := rfl
      have hconv : convertParam ("m" ++ "/" ++ "head/dense/kernel") src
          = npTransposeDefault src := by
        unfold convertParam
        rw [if_neg (by decide), if_pos (by decide)]
      have hshape : (⟨denseTarget, "head/dense/kernel"⟩ : TableEntry).target.shape
          = (convertParam ("m" ++ "/" ++ "head/dense/kernel") src).shape := by
        rw [hconv, hnp]
        show [1000, 1280] = permuteShape [1, 0] src.shape
        rw [hs]
        rfl
      simp only [loadParams, loadOneParam, hst]
      rw [if_pos hshape, hconv]
    · intro i j hi hj
      rw [hnp]
      have hv : validIdx (permuteShape [1, 0] src.shape) [i, j] = true := by
        rw [hs]
        show validIdx [1000, 1280] [i, j] = true
        simp [validIdx, hi, hj]
      rw [item_transposeAxes _ _ _ hv]
      rfl

/-- C5 witness: the dense scenario instantiated at a concrete
`(1280, 1000)` source array. -/
theorem dense_kernel_transposed_witness :
    loadParams (denseStore denseWitSrc) "m" [⟨denseTarget, "head/dense/kernel"⟩]
      = ([npTransposeDefault denseWitSrc], none) :=
  (dense_kernel_transposed.2 denseWitSrc rfl).1

/-- C6: names that neither satisfy the convolution-kernel condition nor
end in `"kernel"` — biases, batch-norm tensors, in particular the
squeeze-excite conv bias whose name contains `"conv"` but not
`"kernel"` — are copied with no transposition, so the target ends up
equal to the source. -/
theorem no_transpose_copy :
    (∀ (fullName : String) (a : NDArray),
      (strContains fullName "conv" && strContains fullName "kernel") = false →
      strEndsWith fullName "kernel" = false →
      convertParam fullName a = a)
    ∧ loadParams seBiasStore "m" [⟨seBiasTarget, "blocks_0/se/conv2d/bias"⟩]
        = ([seBiasSrc], none) := by
  constructor
  · intro fullName a h1 h2
    unfold convertParam
    rw [h1, h2]
    simp
  · rfl

/-- C6 witness: the batch-norm beta name, which contains neither branch
trigger, leaves a concrete array untouched. -/
theorem no_transpose_copy_witness :
    convertParam "m/stem/tpu_batch_normalization/beta" seBiasSrc = seBiasSrc :=
  no_transpose_copy.1 "m/stem/tpu_batch_normalization/beta" seBiasSrc
    (by decide) (by decide)

/-- The source name the builder pairs with each target tensor, as a
function of the block's expand-convolution flag (helper for C7; tensors
the builder never emits — the expand conv and the `bn0` group of a block
without an expand convolution — are mapped to `""`). -/
def tableName (hasExpand : Nat → Bool) : TensorId → String
  | .convStemWeight => "stem/conv2d/kernel"
  | .bn0 .bias => "stem/tpu_batch_normalization/beta"
  | .bn0 .weight => "stem/tpu_batch_normalization/gamma"
  | .bn0 .runningMean => "stem/tpu_batch_normalization/moving_mean"
  | .bn0 .runningVar => "stem/tpu_batch_normalization/moving_variance"
  | .convHeadWeight => "head/conv2d/kernel"
  | .bn1 .bias => "head/tpu_batch_normalization/beta"
  | .bn1 .weight => "head/tpu_batch_normalization/gamma"
  | .bn1 .runningMean => "head/tpu_batch_normalization/moving_mean"
  | .bn1 .runningVar => "head/tpu_batch_normalization/moving_variance"
  | .fcBias => "head/dense/bias"
  | .fcWeight => "head/dense/kernel"
  | .blockTensor i t =>
    if hasExpand i then
      match t with
      | .expandConvWeight => "blocks_" ++ toString i ++ "/conv2d/kernel"
      | .projectConvWeight => "blocks_" ++ toString i ++ "/conv2d_1/kernel"
      | .depthwiseConvWeight => "blocks_" ++ toString i ++ "/depthwise_conv2d/depthwise_kernel"
      | .seReduceBias => "blocks_" ++ toString i ++ "/se/conv2d/bias"
      | .seReduceWeight => "blocks_" ++ toString i ++ "/se/conv2d/kernel"
      | .seExpandBias => "blocks_" ++ toString i ++ "/se/conv2d_1/bias"
      | .seExpandWeight => "blocks_" ++ toString i ++ "/se/conv2d_1/kernel"
      | .bn0 .bias => "blocks_" ++ toString i ++ "/tpu_batch_normalization/beta"
      | .bn0 .weight => "blocks_" ++ toString i ++ "/tpu_batch_normalization/gamma"
      | .bn0 .runningMean => "blocks_" ++ toString i ++ "/tpu_batch_normalization/moving_mean"
      | .bn0 .runningVar => "blocks_" ++ toString i ++ "/tpu_batch_normalization/moving_variance"
      | .bn1 .bias => "blocks_" ++ toString i ++ "/tpu_batch_normalization_1/beta"
      | .bn1 .weight => "blocks_" ++ toString i ++ "/tpu_batch_normalization_1/gamma"
      | .bn1 .runningMean => "blocks_" ++ toString i ++ "/tpu_batch_normalization_1/moving_mean"
      | .bn1 .runningVar => "blocks_" ++ toString i ++ "/tpu_batch_normalization_1/moving_variance"
      | .bn2 .bias => "blocks_" ++ toString i ++ "/tpu_batch_normalization_2/beta"
      | .bn2 .weight => "blocks_" ++ toString i ++ "/tpu_batch_normalization_2/gamma"
      | .bn2 .runningMean => "blocks_" ++ toString i ++ "/tpu_batch_normalization_2/moving_mean"
      | .bn2 .runningVar => "blocks_" ++ toString i ++ "/tpu_batch_normalization_2/moving_variance"
    else
      match t with
      | .expandConvWeight => ""
      | .projectConvWeight => "blocks_" ++ toString i ++ "/conv2d/kernel"
      | .depthwiseConvWeight => "blocks_" ++ toString i ++ "/depthwise_conv2d/depthwise_kernel"
      | .seReduceBias => "blocks_" ++ toString i ++ "/se/conv2d/bias"
      | .seReduceWeight => "blocks_" ++ toString i ++ "/se/conv2d/kernel"
      | .seExpandBias => "blocks_" ++ toString i ++ "/se/conv2d_1/bias"
      | .seExpandWeight => "blocks_" ++ toString i ++ "/se/conv2d_1/kernel"
      | .bn0 _ => ""
      | .bn1 .bias => "blocks_" ++ toString i ++ "/tpu_batch_normalization/beta"
      | .bn1 .weight => "blocks_" ++ toString i ++ "/tpu_batch_normalization/gamma"
      | .bn1 .runningMean => "blocks_" ++ toString i ++ "/tpu_batch_normalization/moving_mean"
      | .bn1 .runningVar => "blocks_" ++ toString i ++ "/tpu_batch_normalization/moving_variance"
      | .bn2 .bias => "blocks_" ++ toString i ++ "/tpu_batch_normalization_1/beta"
      | .bn2 .weight => "blocks_" ++ toString i ++ "/tpu_batch_normalization_1/gamma"
      | .bn2 .runningMean => "blocks_" ++ toString i ++ "/tpu_batch_normalization_1/moving_mean"
      | .bn2 .runningVar => "blocks_" ++ toString i ++ "/tpu_batch_normalization_1/moving_variance"

/-- Every pair the builder emits carries the name `tableName` assigns to
its target (when block 0 has no expand convolution, as in every
EfficientNet). -/
theorem conversionPairs_snd_eq {B : Nat} {h : Nat → Bool} (h0 : h 0 = false) :
    ∀ p ∈ conversionPairs B h, p.2 = tableName h p.1 := by
  intro p hp
  simp only [conversionPairs, List.append_assoc, List.mem_append,
    List.mem_flatten, List.mem_map] at hp
  rcases hp with hp | hp | ⟨l, ⟨i, hi, rfl⟩, hp⟩
  · simp only [outsideBlocksTable, List.mem_cons, List.not_mem_nil,
      or_false] at hp
    rcases hp with rfl | rfl | rfl | rfl | rfl | rfl | rfl | rfl | rfl | rfl
      | rfl | rfl <;> rfl
  · simp only [firstBlockTable, List.mem_cons, List.not_mem_nil,
      or_false] at hp
    rcases hp with rfl | rfl | rfl | rfl | rfl | rfl | rfl | rfl | rfl | rfl
      | rfl | rfl | rfl | rfl <;> simp [tableName, h0] <;> decide
  · cases hhi : h i with
    | true =>
      simp only [blockTable, hhi, if_true, hasExpandBlockTable, List.mem_cons,
        List.not_mem_nil, or_false] at hp
      rcases hp with rfl | rfl | rfl | rfl | rfl | rfl | rfl | rfl | rfl | rfl
        | rfl | rfl | rfl | rfl | rfl | rfl | rfl | rfl | rfl <;>
        simp [tableName, hhi]
    | false =>
      simp only [blockTable, hhi, Bool.false_eq_true, if_false,
        noExpandBlockTable, List.mem_cons, List.not_mem_nil, or_false] at hp
      rcases hp with rfl | rfl | rfl | rfl | rfl | rfl | rfl | rfl | rfl | rfl
        | rfl | rfl | rfl | rfl <;>
        simp [tableName, hhi]

/-- C7: across the full conversion table for any block count, no target
tensor is mapped to two different source names; in particular block 0's
entries from the dedicated first-block table and from the loop at
`i = 0` agree, so the merges never overwrite a key with a different
value.  (Block 0 of an EfficientNet has no expand convolution, which is
the premise.) -/
theorem conversion_table_functional (B : Nat) (h : Nat → Bool)
    (h0 : h 0 = false) : pairsFunctional (conversionPairs B h) := by
  intro p hp q hq heq
  rw [conversionPairs_snd_eq h0 p hp, conversionPairs_snd_eq h0 q hq, heq]

/-- C7 witness: a 3-block model whose blocks 1 and 2 have expand
convolutions. -/
theorem conversion_table_functional_witness :
    pairsFunctional (conversionPairs 3 (fun i => decide (0 < i))) :=
  conversion_table_functional 3 (fun i => decide (0 < i)) rfl

/-- C8: for every rank-4 array, the `(3, 2, 0, 1)` convolution
permutation is undone by its inverse `(2, 3, 1, 0)`, and the depthwise
composite (the extra first-two-axis swap on top of `(3, 2, 0, 1)`) is
undone by the inverse `(2, 3, 0, 1)` of the net permutation. -/
theorem transpose_roundtrip (a : NDArray) (hw : a.wf) (h4 : a.shape.length = 4) :
    transposeAxes (transposeAxes a [3, 2, 0, 1]) [2, 3, 1, 0] = a
    ∧ transposeAxes (transposeAxes (transposeAxes a [3, 2, 0, 1]) [1, 0, 2, 3])
        [2, 3, 0, 1] = a :=
  ⟨conv_perm_roundtrip hw h4, depthwise_perm_roundtrip hw h4⟩

/-- C8 witness: the round trips at a concrete rank-4 array. -/
theorem transpose_roundtrip_witness :
    transposeAxes (transposeAxes ⟨[1, 2, 1, 1], [3, 4]⟩ [3, 2, 0, 1])
        [2, 3, 1, 0] = ⟨[1, 2, 1, 1], [3, 4]⟩
    ∧ transposeAxes (transposeAxes (transposeAxes ⟨[1, 2, 1, 1], [3, 4]⟩
        [3, 2, 0, 1]) [1, 0, 2, 3]) [2, 3, 0, 1] = ⟨[1, 2, 1, 1], [3, 4]⟩ :=
  transpose_roundtrip ⟨[1, 2, 1, 1], [3, 4]⟩ rfl rfl

/-- C9: the branch tests run on the full `model_name + '/' + subpath`
string, so for model names free of `"conv"`, `"depthwise"` and
`"kernel"` the chosen branch depends only on the subpath; but for a
model name containing `"conv"` (here `"convnet"`), the dense head kernel
is fed to the 4-axis `(3, 2, 0, 1)` convolution permutation instead of
the 2-D transpose. -/
theorem branch_on_full_name :
    (∀ m1 m2 sub : String,
      strContains m1 "conv" = false → strContains m1 "depthwise" = false →
      strContains m1 "kernel" = false →
      strContains m2 "conv" = false → strContains m2 "depthwise" = false →
      strContains m2 "kernel" = false →
      ∀ a : NDArray,
        convertParam (m1 ++ "/" ++ sub) a = convertParam (m2 ++ "/" ++ sub) a)
    ∧ strContains "convnet" "conv" = true
    ∧ ∀ a : NDArray,
        convertParam ("convnet" ++ "/" ++ "head/dense/kernel") a
          = transposeAxes a [3, 2, 0, 1] := by
  refine ⟨?_, by decide, ?_⟩
  · intro m1 m2 sub hc1 hd1 hk1 hc2 hd2 hk2 a
    unfold convertParam
    rw [strContains_seam "conv" (by decide) (by decide) m1 sub,
        strContains_seam "kernel" (by decide) (by decide) m1 sub,
        strContains_seam "depthwise" (by decide) (by decide) m1 sub,
        strEndsWith_seam "kernel" (by decide) m1 sub,
        strContains_seam "conv" (by decide) (by decide) m2 sub,
        strContains_seam "kernel" (by decide) (by decide) m2 sub,
        strContains_seam "depthwise" (by decide) (by decide) m2 sub,
        strEndsWith_seam "kernel" (by decide) m2 sub,
        hc1, hd1, hk1, hc2, hd2, hk2]
  · intro a
    unfold convertParam
    rw [if_pos (by decide), if_neg (by decide)]

/-- C9 witness: two clean model names give the same result on the dense
head kernel subpath. -/
theorem branch_on_full_name_witness :
    convertParam ("efficientnet-b0" ++ "/" ++ "head/dense/kernel") seBiasSrc
      = convertParam ("x" ++ "/" ++ "head/dense/kernel") seBiasSrc :=
  branch_on_full_name.1 "efficientnet-b0" "x" "head/dense/kernel"
    (by decide) (by decide) (by decide) (by decide) (by decide) (by decide)
    seBiasSrc

/-- C10: when the loop aborts at some entry, every earlier entry's target
has already been overwritten with its converted value and stays so, while
the failing entry's target, and every later one, is unchanged. -/
theorem abort_leaves_partial_update (store : Store) (m : String)
    (pre : List TableEntry) :
    ∀ (e : TableEntry) (post : List TableEntry) (err : LoadError),
      (∀ p ∈ pre, ∃ v, loadOneParam store m p = .ok v) →
      loadOneParam store m e = .error err →
      loadParams store m (pre ++ e :: post)
        = (pre.map (loadedValue store m)
            ++ e.target :: post.map (fun x => x.target), some err) := by
  induction pre with
  | nil =>
    intro e post err hpre he
    simp only [List.nil_append, List.map_nil, loadParams, he]
  | cons p ps ih =>
    intro e post err hpre he
    obtain ⟨v, hv⟩ := hpre p (List.mem_cons_self p ps)
    have hrec := ih e post err (fun q hq => hpre q (List.mem_cons_of_mem p hq)) he
    simp only [List.cons_append, loadParams, hv, hrec, List.map_cons]
    simp [loadedValue, hv, hrec]

/-- Entries for the C10 witness scenario. -/
def c10FirstEntry : TableEntry := ⟨stemTarget, "stem/conv2d/kernel"⟩

/-- A second entry whose target shape `(5)` cannot match the stored
`(7)` bias. -/
def c10SecondEntry : TableEntry := ⟨⟨[5], List.replicate 5 0⟩, "head/dense/bias"⟩

/-- A store holding the stem kernel and a `(7)` head bias. -/
def c10Store : Store := fun n =>
  if n = "m/stem/conv2d/kernel" then some stemSrc
  else if n = "m/head/dense/bias" then some ⟨[7], List.replicate 7 1⟩
  else none

/-- C10 witness: the first entry is overwritten with its converted value,
the failing second entry keeps its previous target. -/
theorem abort_leaves_partial_update_witness :
    loadParams c10Store "m" ([c10FirstEntry] ++ c10SecondEntry :: [])
      = ([c10FirstEntry].map (loadedValue c10Store "m")
          ++ c10SecondEntry.target
            :: ([] : List TableEntry).map (fun x => x.target),
         some (.dimMismatch [5] [7] "m/head/dense/bias")) :=
  abort_leaves_partial_update c10Store "m" [c10FirstEntry] c10SecondEntry []
    (.dimMismatch [5] [7] "m/head/dense/bias")
    (fun p hp => by
      rw [List.mem_singleton] at hp
      subst hp
      exact ⟨convertParam "m/stem/conv2d/kernel" stemSrc, rfl⟩)
    rfl
